import Mathlib

/-!
Shallow embedding of the sharded Adam optimizer in
`src/torch_mnm/optimizer/adam.py` (class `Adam`), together with theorems
settling the specification claims about it.

Modelling conventions:
* A tensor is a leading-dimension list of rows; each row is the flattened
  list of the trailing dimensions' entries (rationals stand for the
  tensor's numeric values).  `innerShape` records the trailing dimensions,
  `dtype` and `device` are opaque tags, `requiresGrad` is the autograd
  flag.  All operations in `adam.py` act along dimension 0, so this
  representation is faithful for any number of trailing dimensions.
* `torch.nn.functional.pad` with a pad list of length `2*ndim` whose only
  nonzero entry is the LAST one pads the trailing side of dimension 0
  (torch's pad list runs from the last dimension to the first, two entries
  per dimension); hence the pad in `Adam._partition` appends zero rows.
* Python slicing `t[a:b]` (with `0 ≤ a ≤ b`) is `(List.drop a).take (b-a)`.
* `Tensor.scatter_(dim=0, index, src)` is modelled sequentially in
  row-major order, last write wins, as in a serial CPU implementation:
  `self[index[i][j]][j] = src[i][j]`.  The theorems below only depend on
  rows that no index entry names, which are order-independent.
-/

namespace RatexAdam

/-- A tensor: trailing-dimension shape, dtype/device tags, the autograd
flag and the rows along the leading dimension (each row flattened). -/
structure Tensor where
  innerShape : List Nat
  dtype : Nat
  device : Nat
  requiresGrad : Bool
  rows : List (List ℚ)
  deriving Repr, DecidableEq

/-- The shape of a tensor: leading dimension followed by the trailing
dimensions (`data.shape` in the source). -/
def Tensor.shape (t : Tensor) : List Nat :=
  t.rows.length :: t.innerShape

/-- An all-zero row of the given flattened width. -/
def zeroRow (w : Nat) : List ℚ :=
  List.replicate w 0

/-- Well-formedness: every row has the width prescribed by `innerShape`. -/
def Tensor.wf (t : Tensor) : Prop :=
  ∀ r ∈ t.rows, r.length = t.innerShape.prod

/-- Ceiling division on naturals, the value of `math.ceil(n / w)` for
nonnegative `n` and positive `w` (as in `Adam._create_partitioned_buffer`). -/
def ceilDiv (n w : Nat) : Nat :=
  (n + w - 1) / w

/-- The distributed context captured at construction time:
`dctx.rank`, `dctx.size` and `dctx.zero_opt_level`. -/
structure DistCtx where
  rank : Nat
  worldSize : Nat
  zeroOptLevel : Nat
  deriving Repr, DecidableEq

/-- `Adam._need_partition`: `self._zero_opt_level > 0 and
data.shape[0] >= self._world_size`. -/
def needPartition (cfg : DistCtx) (data : Tensor) : Bool :=
  decide (0 < cfg.zeroOptLevel) && decide (cfg.worldSize ≤ data.rows.length)

/-- `Adam._create_partitioned_buffer`: a zero buffer whose shape is the
parameter's shape with the leading dimension replaced by
`math.ceil(shape[0] / world_size)`; `dtype` is inherited, the buffer is
moved to the parameter's device, and `requires_grad=False`. -/
def createPartitionedBuffer (cfg : DistCtx) (data : Tensor) : Tensor :=
  { innerShape := data.innerShape
    dtype := data.dtype
    device := data.device
    requiresGrad := false
    rows := List.replicate (ceilDiv data.rows.length cfg.worldSize)
      (zeroRow data.innerShape.prod) }

/-- `torch.zeros(p.data.size(), dtype=p.data.dtype).to(device=p.data.device)`
used for the unsharded lazy state initialization in `Adam.step`. -/
def zerosLike (data : Tensor) : Tensor :=
  { innerShape := data.innerShape
    dtype := data.dtype
    device := data.device
    requiresGrad := false
    rows := List.replicate data.rows.length (zeroRow data.innerShape.prod) }

/-- The pad step of `Adam._partition`: `torch.nn.functional.pad` with a
pad list whose only nonzero entry is the last one appends
`world_size * part_size - shape[0]` zero rows (trailing side of dimension
0) when `world_size * part_size > shape[0]`, and is skipped otherwise. -/
def Adam.padRows (cfg : DistCtx) (globalData : Tensor) (partSize : Nat) :
    List (List ℚ) :=
  if cfg.worldSize * partSize > globalData.rows.length then
    globalData.rows ++
      List.replicate (cfg.worldSize * partSize - globalData.rows.length)
        (zeroRow globalData.innerShape.prod)
  else
    globalData.rows

/-- `Adam._partition(global_data, local_data)`: if the tensor needs
partitioning, pad it along the leading dimension with trailing zero rows
(see `Adam.padRows`), then slice rows
`[rank * part_size : (rank + 1) * part_size]` where
`part_size = local_data.shape[0]`; otherwise return the tensor
unchanged. -/
def Adam.partition (cfg : DistCtx) (globalData localData : Tensor) : Tensor :=
  if needPartition cfg globalData then
    { globalData with
      rows := ((Adam.padRows cfg globalData localData.rows.length).drop
        (cfg.rank * localData.rows.length)).take localData.rows.length }
  else
    globalData

/-- `rows.set r (f rows[r])`: in-place update of one row. -/
def updateRow (rows : List (List ℚ)) (r : Nat) (f : List ℚ → List ℚ) :
    List (List ℚ) :=
  rows.set r (f (rows.getD r []))

/-- One source row of `scatter_(dim=0, index, src)`: for each column `j`,
write `src[j]` into row `index[j]` at column `j`.  `j` is the column of
the current entry. -/
def scatterRowDim0 (self : List (List ℚ)) (idx : List Nat) (src : List ℚ)
    (j : Nat) : List (List ℚ) :=
  match idx, src with
  | r :: idx, v :: src =>
      scatterRowDim0 (updateRow self r (fun row => row.set j v)) idx src (j + 1)
  | _, _ => self

/-- `self.scatter_(dim=0, index=index, src=src)`: row-major sequential
scatter, last write wins. -/
def scatterDim0 (self : List (List ℚ)) (index : List (List Nat))
    (src : List (List ℚ)) : List (List ℚ) :=
  match index, src with
  | ir :: index, sr :: src => scatterDim0 (scatterRowDim0 self ir sr 0) index src
  | _, _ => self

/-- `torch.zeros(src.size(), dtype=torch.int64)`: the all-zero index
tensor built in `Adam.step` for the sharded writeback. -/
def zeroIndex (src : List (List ℚ)) : List (List Nat) :=
  src.map (fun row => row.map (fun _ => 0))

/-- Elementwise unary map; shape, dtype and device are inherited. -/
def tmap (f : ℚ → ℚ) (t : Tensor) : Tensor :=
  { t with rows := t.rows.map (fun row => row.map f) }

/-- Elementwise binary map; the metadata of the first operand is kept
(operands have equal shapes wherever the optimizer uses this). -/
def tzip (f : ℚ → ℚ → ℚ) (a b : Tensor) : Tensor :=
  { a with rows := List.zipWith (fun ra rb => List.zipWith f ra rb) a.rows b.rows }

/-- The hyperparameters of one parameter group. -/
structure Hyper where
  lr : ℚ
  beta1 : ℚ
  beta2 : ℚ
  eps : ℚ
  weightDecay : ℚ
  amsgrad : Bool
  deriving Repr, DecidableEq

/-- Modelled from the spec: the functional Adam update `F.adam` lives in
`torch_mnm/optimizer/_functional.py`, which is not part of the excerpt.
Following the spec's recurrence for a single parameter:
`exp_avg ← β1·exp_avg + (1-β1)·grad`,
`exp_avg_sq ← β2·exp_avg_sq + (1-β2)·grad²`,
`bias_correction1 = 1-β1^step`, `bias_correction2 = 1-β2^step`,
decoupled weight decay multiplying the parameter directly,
`denom = sqrt(exp_avg_sq)/sqrt(bias_correction2) + eps`,
`step_size = lr / bias_correction1`,
`updated = param - step_size · exp_avg / denom`.
Real-valued square root is modelled by `Rat.sqrt`, which is exact on
perfect squares (all concrete inputs used below are perfect squares).
Returns the updated local parameter together with the updated moment
buffers (mutated in place in the source). -/
def Fadam (hp : Hyper) (step : Nat) (param grad expAvg expAvgSq : Tensor) :
    Tensor × Tensor × Tensor :=
  let bc1 : ℚ := 1 - hp.beta1 ^ step
  let bc2 : ℚ := 1 - hp.beta2 ^ step
  let newAvg := tzip (fun m g => hp.beta1 * m + (1 - hp.beta1) * g) expAvg grad
  let newAvgSq :=
    tzip (fun v g => hp.beta2 * v + (1 - hp.beta2) * g * g) expAvgSq grad
  let stepSize := hp.lr / bc1
  let denom := tmap (fun v => Rat.sqrt v / Rat.sqrt bc2 + hp.eps) newAvgSq
  let decayed := tmap (fun x => x - hp.lr * hp.weightDecay * x) param
  let updated :=
    tzip (fun x d => x - stepSize * d) decayed (tzip (fun m d => m / d) newAvg denom)
  (updated, newAvg, newAvgSq)

/-- The per-parameter optimizer state record
`{step, exp_avg, exp_avg_sq}`. -/
structure AdamState where
  step : Nat
  expAvg : Tensor
  expAvgSq : Tensor
  deriving Repr, DecidableEq

/-- A gradient: its tensor together with the `is_sparse` flag. -/
structure Grad where
  tensor : Tensor
  isSparse : Bool
  deriving Repr, DecidableEq

/-- Errors raised inside `Adam.step`. -/
inductive StepError where
  | unsupportedGradient
  deriving Repr, DecidableEq

/-- Errors raised by `Adam.__init__`. -/
inductive InitError where
  | invalidArgument
  | notImplemented
  deriving Repr, DecidableEq

/-- The hyperparameter validation of `Adam.__init__`, in source order:
`lr`, `eps`, `betas[0]`, `betas[1]`, `weight_decay`, then `amsgrad`.
Each failed check raises before anything is constructed. -/
def adamInit (lr : ℚ) (betas : ℚ × ℚ) (eps weightDecay : ℚ)
    (amsgrad : Bool) : Except InitError Hyper :=
  if ¬ (0 ≤ lr) then .error .invalidArgument
  else if ¬ (0 ≤ eps) then .error .invalidArgument
  else if ¬ (0 ≤ betas.1 ∧ betas.1 < 1) then .error .invalidArgument
  else if ¬ (0 ≤ betas.2 ∧ betas.2 < 1) then .error .invalidArgument
  else if ¬ (0 ≤ weightDecay) then .error .invalidArgument
  else if amsgrad then .error .notImplemented
  else .ok ⟨lr, betas.1, betas.2, eps, weightDecay, amsgrad⟩

/-- The lazy state initialization of `Adam.step`: reuse the existing
state, or create `step=0` with zero moment buffers (shard-shaped when the
parameter needs partitioning, full-shaped otherwise). -/
def initState (cfg : DistCtx) (data : Tensor) (st : Option AdamState) :
    AdamState :=
  match st with
  | some s => s
  | none =>
      if needPartition cfg data then
        ⟨0, createPartitionedBuffer cfg data, createPartitionedBuffer cfg data⟩
      else
        ⟨0, zerosLike data, zerosLike data⟩

/-- The value `updated_param_with_grad_local` (with the two updated
moment buffers) computed by `Adam.step` for one parameter: partition the
parameter and its gradient against the `exp_avg` template, increment the
step counter, and run `F.adam` with the incremented counter. -/
def stepUpdated (cfg : DistCtx) (hp : Hyper) (data grad : Tensor)
    (st : Option AdamState) : Tensor × Tensor × Tensor :=
  let s := initState cfg data st
  Fadam hp (s.step + 1) (Adam.partition cfg data s.expAvg)
    (Adam.partition cfg grad s.expAvg) s.expAvg s.expAvgSq

/-- The outcome of processing one parameter in `Adam.step`: the (possibly
mutated) parameter, the (possibly created and mutated) state entry, and
the error raised, if any. -/
structure StepResult where
  param : Tensor
  state : Option AdamState
  error : Option StepError
  deriving Repr, DecidableEq

/-- The body of `Adam.step` for one parameter `p`:
skip when `p.grad is None`; raise `UnsupportedGradient` (before touching
the state) when the gradient is sparse; otherwise lazily initialize the
state, partition, increment the counter, run `F.adam`, and write the
update back — by `scatter_` with an all-zero index when the parameter
needs partitioning, by full in-place overwrite (`param[:] = updated`)
otherwise. -/
def stepParam (cfg : DistCtx) (hp : Hyper) (data : Tensor)
    (grad : Option Grad) (st : Option AdamState) : StepResult :=
  match grad with
  | none => ⟨data, st, none⟩
  | some g =>
      if g.isSparse then
        ⟨data, st, some .unsupportedGradient⟩
      else
        let s := initState cfg data st
        let r := stepUpdated cfg hp data g.tensor st
        let updated := r.1
        let newParamRows :=
          if needPartition cfg data then
            scatterDim0 data.rows (zeroIndex updated.rows) updated.rows
          else
            updated.rows
        ⟨{ data with rows := newParamRows },
          some ⟨s.step + 1, r.2.1, r.2.2⟩, none⟩

/-- Repeated application of `Adam.step` to a single parameter, one
gradient per step, starting from the given state. -/
def runSteps (cfg : DistCtx) (hp : Hyper) (start : Tensor × Option AdamState)
    (grads : List Grad) : Tensor × Option AdamState :=
  grads.foldl
    (fun acc g =>
      let r := stepParam cfg hp acc.1 (some g) acc.2
      (r.param, r.state))
    start

/-- The per-rank shard shape of a parameter:
`ceil(shape[0] / world_size)` followed by the trailing dimensions. -/
def shardShape (cfg : DistCtx) (data : Tensor) : List Nat :=
  ceilDiv data.rows.length cfg.worldSize :: data.innerShape

/-- The state-shape invariant: the two moment buffers share one shape,
and that shape is the shard shape when the parameter needs partitioning
and the full parameter shape otherwise. -/
def stateShapeOK (cfg : DistCtx) (data : Tensor) (s : AdamState) : Prop :=
  s.expAvg.shape = s.expAvgSq.shape ∧
    s.expAvg.shape =
      (if needPartition cfg data then shardShape cfg data else data.shape)

/-- The writeback behaviour asserted by the spec for a shard-eligible
parameter: the updated local shard lands in the global parameter at the
rank's shard offset, i.e. global row `rank * part_size + i` equals row
`i` of `updated_param_with_grad_local` for every `i < part_size`. -/
def writebackAtShardOffset (cfg : DistCtx) (hp : Hyper) (data grad : Tensor)
    (st : Option AdamState) : Prop :=
  ∀ i < (initState cfg data st).expAvg.rows.length,
    (stepParam cfg hp data (some ⟨grad, false⟩) st).param.rows[cfg.rank *
        (initState cfg data st).expAvg.rows.length + i]? =
      (stepUpdated cfg hp data grad st).1.rows[i]?

section Lemmas

lemma ceilDiv_le_iff (n w m : Nat) (hw : 0 < w) :
    ceilDiv n w ≤ m ↔ n ≤ w * m := by
  unfold ceilDiv
  rw [Nat.div_le_iff_le_mul_add_pred hw]
  generalize w * m = t
  omega

lemma le_mul_ceilDiv (n w : Nat) (hw : 0 < w) : n ≤ w * ceilDiv n w :=
  (ceilDiv_le_iff n w (ceilDiv n w) hw).mp le_rfl

lemma ceilDiv_eq_natCeil (n w : Nat) (hw : 0 < w) :
    ceilDiv n w = ⌈(n : ℚ) / (w : ℚ)⌉₊ := by
  have hwq : (0 : ℚ) < (w : ℚ) := by exact_mod_cast hw
  refine le_antisymm ?_ ?_
  · rw [ceilDiv_le_iff n w _ hw]
    have h1 : (n : ℚ) / (w : ℚ) ≤ (⌈(n : ℚ) / (w : ℚ)⌉₊ : ℚ) := Nat.le_ceil _
    have h2 : (n : ℚ) ≤ (⌈(n : ℚ) / (w : ℚ)⌉₊ : ℚ) * (w : ℚ) :=
      (div_le_iff₀ hwq).mp h1
    have h3 : (n : ℚ) ≤ ((w * ⌈(n : ℚ) / (w : ℚ)⌉₊ : Nat) : ℚ) := by
      push_cast
      linarith
    exact_mod_cast h3
  · rw [Nat.ceil_le, div_le_iff₀ hwq]
    have h1 : (n : ℚ) ≤ ((w * ceilDiv n w : Nat) : ℚ) := by
      exact_mod_cast le_mul_ceilDiv n w hw
    push_cast at h1
    linarith

lemma padRows_length (cfg : DistCtx) (g : Tensor) (p : Nat) :
    (Adam.padRows cfg g p).length =
      max g.rows.length (cfg.worldSize * p) := by
  unfold Adam.padRows
  split
  · simp only [List.length_append, List.length_replicate]
    omega
  · omega

lemma partition_innerShape (cfg : DistCtx) (g l : Tensor) :
    (Adam.partition cfg g l).innerShape = g.innerShape := by
  unfold Adam.partition
  split <;> rfl

lemma partition_meta (cfg : DistCtx) (g l : Tensor) :
    (Adam.partition cfg g l).innerShape = g.innerShape ∧
    (Adam.partition cfg g l).dtype = g.dtype ∧
    (Adam.partition cfg g l).device = g.device := by
  unfold Adam.partition
  split <;> exact ⟨rfl, rfl, rfl⟩

lemma partition_rows_length (cfg : DistCtx) (g l : Tensor)
    (hNeed : needPartition cfg g = true) (hr : cfg.rank < cfg.worldSize) :
    (Adam.partition cfg g l).rows.length = l.rows.length := by
  unfold Adam.partition
  rw [if_pos hNeed]
  simp only [List.length_take, List.length_drop, padRows_length]
  have key : cfg.rank * l.rows.length + l.rows.length ≤
      cfg.worldSize * l.rows.length := by
    have h1 : (cfg.rank + 1) * l.rows.length ≤
        cfg.worldSize * l.rows.length :=
      Nat.mul_le_mul_right _ (Nat.succ_le_of_lt hr)
    rw [Nat.add_mul, Nat.one_mul] at h1
    exact h1
  generalize cfg.rank * l.rows.length = a at key
  generalize cfg.worldSize * l.rows.length = b at key
  omega

lemma partition_rows_getElem? (cfg : DistCtx) (g l : Tensor)
    (hNeed : needPartition cfg g = true) (i : Nat)
    (hi : i < l.rows.length) :
    (Adam.partition cfg g l).rows[i]? =
      if cfg.rank * l.rows.length + i < g.rows.length then
        g.rows[cfg.rank * l.rows.length + i]?
      else if cfg.rank * l.rows.length + i <
          cfg.worldSize * l.rows.length then
        some (zeroRow g.innerShape.prod)
      else
        none := by
  unfold Adam.partition
  rw [if_pos hNeed]
  simp only
  rw [List.getElem?_take_of_lt hi, List.getElem?_drop]
  unfold Adam.padRows
  split
  · rename_i hpad
    by_cases hlt : cfg.rank * l.rows.length + i < g.rows.length
    · rw [List.getElem?_append_left hlt, if_pos hlt]
    · push_neg at hlt
      rw [List.getElem?_append_right hlt, if_neg (by omega)]
      by_cases hin : cfg.rank * l.rows.length + i <
          cfg.worldSize * l.rows.length
      · rw [if_pos hin, List.getElem?_replicate_of_lt (by omega)]
      · rw [if_neg hin, List.getElem?_replicate, if_neg (by omega)]
  · rename_i hpad
    push_neg at hpad
    by_cases hlt : cfg.rank * l.rows.length + i < g.rows.length
    · rw [if_pos hlt]
    · rw [if_neg hlt, if_neg (by omega), List.getElem?_eq_none (by omega)]

lemma updateRow_getElem?_ne (rows : List (List ℚ)) (r : Nat)
    (f : List ℚ → List ℚ) (i : Nat) (h : r ≠ i) :
    (updateRow rows r f)[i]? = rows[i]? := by
  unfold updateRow
  exact List.getElem?_set_ne h

lemma scatterRowDim0_getElem? (idx : List Nat) (src : List ℚ)
    (self : List (List ℚ)) (j i : Nat) (h : ∀ r ∈ idx, r ≠ i) :
    (scatterRowDim0 self idx src j)[i]? = self[i]? := by
  induction idx generalizing self src j with
  | nil => simp [scatterRowDim0]
  | cons r rs ih =>
      cases src with
      | nil => simp [scatterRowDim0]
      | cons v vs =>
          simp only [scatterRowDim0]
          rw [ih _ _ _ (fun x hx => h x (List.mem_cons_of_mem _ hx))]
          exact updateRow_getElem?_ne _ _ _ _ (h r (List.mem_cons_self _ _))

lemma scatterDim0_getElem? (index : List (List Nat))
    (src self : List (List ℚ)) (i : Nat)
    (h : ∀ ir ∈ index, ∀ r ∈ ir, r ≠ i) :
    (scatterDim0 self index src)[i]? = self[i]? := by
  induction index generalizing self src with
  | nil => simp [scatterDim0]
  | cons ir irs ih =>
      cases src with
      | nil => simp [scatterDim0]
      | cons sr srs =>
          simp only [scatterDim0]
          rw [ih _ _ (fun x hx y hy => h x (List.mem_cons_of_mem _ hx) y hy)]
          exact scatterRowDim0_getElem? _ _ _ _ _
            (fun y hy => h ir (List.mem_cons_self _ _) y hy)

lemma zeroIndex_all_zero (src : List (List ℚ)) :
    ∀ ir ∈ zeroIndex src, ∀ r ∈ ir, r = 0 := by
  intro ir hir r hr
  simp only [zeroIndex, List.mem_map] at hir
  obtain ⟨row, _, hrow⟩ := hir
  rw [← hrow] at hr
  simp only [List.mem_map] at hr
  obtain ⟨x, _, hx⟩ := hr
  exact hx.symm

lemma stepParam_state (cfg : DistCtx) (hp : Hyper) (data : Tensor)
    (g : Grad) (st : Option AdamState) (hs : g.isSparse = false) :
    (stepParam cfg hp data (some g) st).state =
      some ⟨(initState cfg data st).step + 1,
        (stepUpdated cfg hp data g.tensor st).2.1,
        (stepUpdated cfg hp data g.tensor st).2.2⟩ := by
  simp [stepParam, hs]

lemma stepParam_param_rows (cfg : DistCtx) (hp : Hyper) (data : Tensor)
    (g : Grad) (st : Option AdamState) (hs : g.isSparse = false) :
    (stepParam cfg hp data (some g) st).param.rows =
      (if needPartition cfg data then
        scatterDim0 data.rows
          (zeroIndex (stepUpdated cfg hp data g.tensor st).1.rows)
          (stepUpdated cfg hp data g.tensor st).1.rows
      else (stepUpdated cfg hp data g.tensor st).1.rows) := by
  simp [stepParam, hs]

lemma tzip_shape (f : ℚ → ℚ → ℚ) (a b : Tensor)
    (hlen : b.rows.length = a.rows.length) :
    (tzip f a b).shape = a.shape := by
  simp [tzip, Tensor.shape, hlen]

lemma runSteps_cons (cfg : DistCtx) (hp : Hyper)
    (start : Tensor × Option AdamState) (g : Grad) (grads : List Grad) :
    runSteps cfg hp start (g :: grads) =
      runSteps cfg hp
        ((stepParam cfg hp start.1 (some g) start.2).param,
          (stepParam cfg hp start.1 (some g) start.2).state) grads := by
  simp [runSteps]

lemma runSteps_state_step (cfg : DistCtx) (hp : Hyper) (grads : List Grad)
    (hns : ∀ x ∈ grads, x.isSparse = false) :
    ∀ (t : Tensor) (s : AdamState),
      ∃ s', (runSteps cfg hp (t, some s) grads).2 = some s'
        ∧ s'.step = s.step + grads.length := by
  induction grads with
  | nil => exact fun t s => ⟨s, rfl, by simp⟩
  | cons gg rest ih =>
      intro t s
      have hgg : gg.isSparse = false := hns gg (List.mem_cons_self _ _)
      rw [runSteps_cons]
      rw [stepParam_state cfg hp t gg (some s) hgg]
      obtain ⟨s', h1, h2⟩ :=
        ih (fun x hx => hns x (List.mem_cons_of_mem _ hx))
          (stepParam cfg hp t (some gg) (some s)).param
          ⟨(initState cfg t (some s)).step + 1,
            (stepUpdated cfg hp t gg.tensor (some s)).2.1,
            (stepUpdated cfg hp t gg.tensor (some s)).2.2⟩
      refine ⟨s', h1, ?_⟩
      rw [h2]
      simp [initState]
      omega

lemma stepUpdated_moments (cfg : DistCtx) (hp : Hyper) (data grad : Tensor)
    (st : Option AdamState) :
    (stepUpdated cfg hp data grad st).2.1 =
      tzip (fun m gg => hp.beta1 * m + (1 - hp.beta1) * gg)
        (initState cfg data st).expAvg
        (Adam.partition cfg grad (initState cfg data st).expAvg)
    ∧ (stepUpdated cfg hp data grad st).2.2 =
      tzip (fun v gg => hp.beta2 * v + (1 - hp.beta2) * gg * gg)
        (initState cfg data st).expAvgSq
        (Adam.partition cfg grad (initState cfg data st).expAvg) :=
  ⟨rfl, rfl⟩

lemma shape_head (t : Tensor) (s : List Nat) (h : t.shape = s) :
    t.rows.length = s.headI := by
  rw [← h]
  rfl

end Lemmas

/-- Claim C3: `needs_partition` is true iff `zero_opt_level > 0` and the
parameter's leading dimension is at least `world_size`; with
`zero_opt_level = 0` no parameter of any shape is eligible, and with
`world_size = 4`, `zero_opt_level = 1` a `[10, 8]` parameter is eligible
while a `[3, 8]` parameter is not. -/
theorem claim_C3 (cfg cfgZ : DistCtx) (t u : Tensor)
    (hz : cfgZ.zeroOptLevel = 0) :
    (needPartition cfg t = true ↔
        0 < cfg.zeroOptLevel ∧ cfg.worldSize ≤ t.shape.headI)
    ∧ needPartition cfgZ u = false
    ∧ needPartition ⟨0, 4, 1⟩ ⟨[8], 0, 0, true, List.replicate 10 (zeroRow 8)⟩
        = true
    ∧ needPartition ⟨0, 4, 1⟩ ⟨[8], 0, 0, true, List.replicate 3 (zeroRow 8)⟩
        = false := by
  refine ⟨?_, ?_, by simp [needPartition], by simp [needPartition]⟩
  · simp [needPartition, Tensor.shape]
  · simp [needPartition, hz]

/-- Witness for C3 at a concrete configuration and parameters. -/
theorem claim_C3_witness :
    needPartition ⟨0, 2, 0⟩ ⟨[8], 0, 0, true, List.replicate 10 (zeroRow 8)⟩
      = false :=
  (claim_C3 ⟨0, 4, 1⟩ ⟨0, 2, 0⟩
    ⟨[8], 0, 0, true, List.replicate 10 (zeroRow 8)⟩
    ⟨[8], 0, 0, true, List.replicate 10 (zeroRow 8)⟩ rfl).2.1

/-- Claim C4: `_create_partitioned_buffer` returns a zero-initialized buffer
with the same trailing dimensions, dtype and device as the parameter,
leading dimension `ceil(shape[0] / world_size)`, and no gradient
tracking; for `world_size = 4`, leading dimension 10 yields 3 and
leading dimension 8 yields 2. -/
theorem claim_C4 (cfg : DistCtx) (data : Tensor) (hw : 0 < cfg.worldSize) :
    (createPartitionedBuffer cfg data).shape =
        ⌈(data.rows.length : ℚ) / (cfg.worldSize : ℚ)⌉₊ :: data.innerShape
    ∧ (createPartitionedBuffer cfg data).dtype = data.dtype
    ∧ (createPartitionedBuffer cfg data).device = data.device
    ∧ (createPartitionedBuffer cfg data).requiresGrad = false
    ∧ (∀ r ∈ (createPartitionedBuffer cfg data).rows,
        r = zeroRow data.innerShape.prod)
    ∧ (createPartitionedBuffer ⟨0, 4, 1⟩
        ⟨[8], 0, 0, true, List.replicate 10 (zeroRow 8)⟩).rows.length = 3
    ∧ (createPartitionedBuffer ⟨0, 4, 1⟩
        ⟨[8], 0, 0, true, List.replicate 8 (zeroRow 8)⟩).rows.length = 2 := by
  refine ⟨?_, rfl, rfl, rfl, ?_, by simp [createPartitionedBuffer, ceilDiv],
    by simp [createPartitionedBuffer, ceilDiv]⟩
  · simp only [createPartitionedBuffer, Tensor.shape, List.length_replicate]
    rw [ceilDiv_eq_natCeil _ _ hw]
  · intro r hr
    simp only [createPartitionedBuffer] at hr
    exact (List.eq_of_mem_replicate hr)

/-- Witness for C4 at a concrete configuration and parameter. -/
theorem claim_C4_witness :
    (createPartitionedBuffer ⟨0, 4, 1⟩
        ⟨[8], 0, 0, true, List.replicate 10 (zeroRow 8)⟩).shape =
      ⌈(10 : ℚ) / (4 : ℚ)⌉₊ :: [8] := by
  have h := (claim_C4 ⟨0, 4, 1⟩
    ⟨[8], 0, 0, true, List.replicate 10 (zeroRow 8)⟩ (by decide)).1
  simpa using h

/-- Claim C2: for a shard-eligible tensor with `world_size * part_size >
shape[0]`, `_partition` behaves as zero-padding the leading dimension up
to `world_size * part_size` and slicing `[rank*part_size :
(rank+1)*part_size]`: the slice has `part_size` rows, row `i` is the
original row `rank*part_size + i` when that index is in range and a zero
row otherwise, and no other dimension is padded (the trailing shape is
unchanged); concretely, for `world_size = 3`, leading dimension 10,
`part_size = ceil(10/3) = 4`, rank 2 receives rows 8 and 9 followed by
two zero rows. -/
theorem claim_C2 (cfg : DistCtx) (g l : Tensor)
    (hNeed : needPartition cfg g = true)
    (hpad : g.rows.length < cfg.worldSize * l.rows.length)
    (hr : cfg.rank < cfg.worldSize) :
    (Adam.partition cfg g l).innerShape = g.innerShape
    ∧ (Adam.partition cfg g l).rows.length = l.rows.length
    ∧ (∀ i < l.rows.length,
        (Adam.partition cfg g l).rows[i]? =
          if cfg.rank * l.rows.length + i < g.rows.length then
            g.rows[cfg.rank * l.rows.length + i]?
          else some (zeroRow g.innerShape.prod))
    ∧ (Adam.partition ⟨2, 3, 1⟩
        ⟨[2], 0, 0, false,
          [[0, 0], [1, 10], [2, 20], [3, 30], [4, 40], [5, 50], [6, 60],
            [7, 70], [8, 80], [9, 90]]⟩
        (createPartitionedBuffer ⟨2, 3, 1⟩
          ⟨[2], 0, 0, false,
            [[0, 0], [1, 10], [2, 20], [3, 30], [4, 40], [5, 50], [6, 60],
              [7, 70], [8, 80], [9, 90]]⟩)).rows
        = [[8, 80], [9, 90], [0, 0], [0, 0]] := by
  refine ⟨partition_innerShape cfg g l, partition_rows_length cfg g l hNeed hr,
    ?_, ?_⟩
  · intro i hi
    rw [partition_rows_getElem? cfg g l hNeed i hi]
    have key : cfg.rank * l.rows.length + i < cfg.worldSize * l.rows.length := by
      have h1 : (cfg.rank + 1) * l.rows.length ≤
          cfg.worldSize * l.rows.length :=
        Nat.mul_le_mul_right _ (Nat.succ_le_of_lt hr)
      rw [Nat.add_mul, Nat.one_mul] at h1
      generalize cfg.rank * l.rows.length = a at h1 ⊢
      generalize cfg.worldSize * l.rows.length = b at h1 ⊢
      omega
    by_cases hlt : cfg.rank * l.rows.length + i < g.rows.length
    · rw [if_pos hlt, if_pos hlt]
    · rw [if_neg hlt, if_neg hlt, if_pos key]
  · norm_num [Adam.partition, Adam.padRows, needPartition,
      createPartitionedBuffer, ceilDiv, zeroRow, List.replicate]

/-- Witness for C2 at the concrete non-divisible example. -/
theorem claim_C2_witness :
    (Adam.partition ⟨2, 3, 1⟩
      ⟨[2], 0, 0, false,
        [[0, 0], [1, 10], [2, 20], [3, 30], [4, 40], [5, 50], [6, 60],
          [7, 70], [8, 80], [9, 90]]⟩
      ⟨[2], 0, 0, false, List.replicate 4 (zeroRow 2)⟩).rows.length = 4 :=
  (claim_C2 ⟨2, 3, 1⟩
    ⟨[2], 0, 0, false,
      [[0, 0], [1, 10], [2, 20], [3, 30], [4, 40], [5, 50], [6, 60],
        [7, 70], [8, 80], [9, 90]]⟩
    ⟨[2], 0, 0, false, List.replicate 4 (zeroRow 2)⟩
    (by decide) (by decide) (by decide)).2.1

/-- Claim C5: `_partition` returns the global tensor itself when the owning
tensor is not shard-eligible; in the evenly divisible shard-eligible
case (`world_size * part_size = shape[0]`) no padding occurs and the
result is exactly the half-open slice `[rank*part_size :
(rank+1)*part_size]` of the original rows; concretely, for
`world_size = 2` and a `[4, 3]` tensor, rank 0 gets the first two rows
and rank 1 the last two. -/
theorem claim_C5 (cfgA : DistCtx) (gA lA : Tensor)
    (hA : needPartition cfgA gA = false)
    (cfgB : DistCtx) (gB lB : Tensor)
    (hB : needPartition cfgB gB = true)
    (hdiv : cfgB.worldSize * lB.rows.length = gB.rows.length)
    (hrB : cfgB.rank < cfgB.worldSize) :
    Adam.partition cfgA gA lA = gA
    ∧ (Adam.partition cfgB gB lB).rows.length = lB.rows.length
    ∧ (∀ i < lB.rows.length,
        (Adam.partition cfgB gB lB).rows[i]? =
          gB.rows[cfgB.rank * lB.rows.length + i]?)
    ∧ (Adam.partition ⟨0, 2, 1⟩
        ⟨[3], 0, 0, false, [[1, 2, 3], [4, 5, 6], [7, 8, 9], [10, 11, 12]]⟩
        ⟨[3], 0, 0, false, List.replicate 2 (zeroRow 3)⟩).rows
        = [[1, 2, 3], [4, 5, 6]]
    ∧ (Adam.partition ⟨1, 2, 1⟩
        ⟨[3], 0, 0, false, [[1, 2, 3], [4, 5, 6], [7, 8, 9], [10, 11, 12]]⟩
        ⟨[3], 0, 0, false, List.replicate 2 (zeroRow 3)⟩).rows
        = [[7, 8, 9], [10, 11, 12]] := by
  refine ⟨by unfold Adam.partition; rw [if_neg (by simp [hA])],
    partition_rows_length cfgB gB lB hB hrB, ?_, ?_, ?_⟩
  · intro i hi
    rw [partition_rows_getElem? cfgB gB lB hB i hi]
    have key : cfgB.rank * lB.rows.length + i < gB.rows.length := by
      have h1 : (cfgB.rank + 1) * lB.rows.length ≤
          cfgB.worldSize * lB.rows.length :=
        Nat.mul_le_mul_right _ (Nat.succ_le_of_lt hrB)
      rw [Nat.add_mul, Nat.one_mul] at h1
      rw [hdiv] at h1
      generalize cfgB.rank * lB.rows.length = a at h1 ⊢
      omega
    rw [if_pos key]
  · norm_num [Adam.partition, Adam.padRows, needPartition, zeroRow,
      List.replicate]
  · norm_num [Adam.partition, Adam.padRows, needPartition, zeroRow,
      List.replicate]

/-- Witness for C5 at concrete ineligible and divisible inputs. -/
theorem claim_C5_witness :
    Adam.partition ⟨0, 2, 0⟩
        ⟨[3], 0, 0, false, [[1, 2, 3], [4, 5, 6], [7, 8, 9], [10, 11, 12]]⟩
        ⟨[3], 0, 0, false, List.replicate 2 (zeroRow 3)⟩
      = ⟨[3], 0, 0, false, [[1, 2, 3], [4, 5, 6], [7, 8, 9], [10, 11, 12]]⟩ :=
  (claim_C5 ⟨0, 2, 0⟩
    ⟨[3], 0, 0, false, [[1, 2, 3], [4, 5, 6], [7, 8, 9], [10, 11, 12]]⟩
    ⟨[3], 0, 0, false, List.replicate 2 (zeroRow 3)⟩ (by decide)
    ⟨1, 2, 1⟩
    ⟨[3], 0, 0, false, [[1, 2, 3], [4, 5, 6], [7, 8, 9], [10, 11, 12]]⟩
    ⟨[3], 0, 0, false, List.replicate 2 (zeroRow 3)⟩ (by decide) (by decide)
    (by decide)).1

/-- Claim C7: for a parameter whose gradient is sparse, `step` raises
`UnsupportedGradient` and leaves that parameter's optimizer state
untouched — the state is not created if absent and unchanged if present,
and the parameter itself is not modified. -/
theorem claim_C7 (cfg : DistCtx) (hp : Hyper) (data : Tensor) (g : Grad)
    (st : Option AdamState) (hs : g.isSparse = true) :
    stepParam cfg hp data (some g) st =
      ⟨data, st, some StepError.unsupportedGradient⟩ := by
  simp [stepParam, hs]

/-- Witness for C7 at a concrete sparse gradient. -/
theorem claim_C7_witness :
    stepParam ⟨0, 2, 1⟩ ⟨1, 0, 0, 0, 0, false⟩
        ⟨[1], 0, 0, false, [[1], [2]]⟩
        (some ⟨⟨[1], 0, 0, false, [[3], [4]]⟩, true⟩) none =
      ⟨⟨[1], 0, 0, false, [[1], [2]]⟩, none,
        some StepError.unsupportedGradient⟩ :=
  claim_C7 ⟨0, 2, 1⟩ ⟨1, 0, 0, 0, 0, false⟩ ⟨[1], 0, 0, false, [[1], [2]]⟩
    ⟨⟨[1], 0, 0, false, [[3], [4]]⟩, true⟩ none rfl

/-- Counterexample for C8: with `lr = -1` and `amsgrad = true` the
constructor fails with `InvalidArgument`, not `NotImplemented` — the
numeric checks run before the `amsgrad` check, so "amsgrad=true always
fails with NotImplemented" is false as stated. -/
theorem claim_C8_counterexample :
    adamInit (-1) (9/10, 999/1000) (1/100000000) 0 true =
        Except.error InitError.invalidArgument
    ∧ InitError.invalidArgument ≠ InitError.notImplemented := by
  refine ⟨by norm_num [adamInit], by decide⟩

/-- Claim C8 (amended): constructing with `lr<0`, `eps<0`, `β1∉[0,1)`,
`β2∉[0,1)` or `weight_decay<0` always fails with `InvalidArgument`;
constructing with `amsgrad=true` always fails — with `NotImplemented`
when every numeric hyperparameter is valid, the numeric checks running
first; there is no partial construction (the result is either an error
or a fully built record); the defaults always succeed. -/
theorem claim_C8 (lr eps wd : ℚ) (betas : ℚ × ℚ) (ams : Bool)
    (hbad : lr < 0 ∨ eps < 0 ∨ ¬(0 ≤ betas.1 ∧ betas.1 < 1) ∨
      ¬(0 ≤ betas.2 ∧ betas.2 < 1) ∨ wd < 0)
    (lr2 eps2 wd2 : ℚ) (betas2 : ℚ × ℚ)
    (h1 : 0 ≤ lr2) (h2 : 0 ≤ eps2) (h3 : 0 ≤ betas2.1 ∧ betas2.1 < 1)
    (h4 : 0 ≤ betas2.2 ∧ betas2.2 < 1) (h5 : 0 ≤ wd2) :
    adamInit lr betas eps wd ams = Except.error InitError.invalidArgument
    ∧ adamInit lr2 betas2 eps2 wd2 true =
        Except.error InitError.notImplemented
    ∧ (∀ (a b c : ℚ) (bs : ℚ × ℚ), ∃ e, adamInit a bs b c true =
        Except.error e)
    ∧ adamInit (1/1000) (9/10, 999/1000) (1/100000000) 0 false =
        Except.ok ⟨1/1000, 9/10, 999/1000, 1/100000000, 0, false⟩ := by
  refine ⟨?_, ?_, ?_, by norm_num [adamInit]⟩
  · unfold adamInit
    split_ifs with c1 c2 c3 c4 c5 c6 <;> try rfl
    all_goals
      (push_neg at c1 c2 c3 c4 c5
       rcases hbad with h | h | h | h | h <;> first | linarith | tauto)
  · unfold adamInit
    rw [if_neg (not_not_intro h1), if_neg (not_not_intro h2),
      if_neg (not_not_intro h3), if_neg (not_not_intro h4),
      if_neg (not_not_intro h5), if_pos rfl]
  · intro a b c bs
    unfold adamInit
    split_ifs <;>
      first
      | exact ⟨_, rfl⟩
      | exact absurd rfl (by assumption)

/-- Witness for C8 at concrete hyperparameters. -/
theorem claim_C8_witness :
    adamInit (1/1000) (9/10, 999/1000) (1/100000000) 0 true =
      Except.error InitError.notImplemented :=
  (claim_C8 (-1) (1/100000000) 0 (9/10, 999/1000) true
    (Or.inl (by norm_num)) (1/1000) (1/100000000) 0 (9/10, 999/1000)
    (by norm_num) (by norm_num) (by norm_num) (by norm_num)
    (by norm_num)).2.1

/-- Claim C10: for a shard-eligible parameter the writeback scatter uses
an index tensor that is entirely zeros, so only row 0 of the global
parameter can be modified: every row at index 1 or greater keeps the
value it had before the writeback, regardless of the rank. -/
theorem claim_C10 (cfg : DistCtx) (hp : Hyper) (data : Tensor) (g : Grad)
    (st : Option AdamState) (hs : g.isSparse = false)
    (hNeed : needPartition cfg data = true) :
    (∀ ir ∈ zeroIndex (stepUpdated cfg hp data g.tensor st).1.rows,
        ∀ r ∈ ir, r = 0)
    ∧ ∀ i, 1 ≤ i →
        (stepParam cfg hp data (some g) st).param.rows[i]? =
          data.rows[i]? := by
  refine ⟨zeroIndex_all_zero _, ?_⟩
  intro i hi
  rw [stepParam_param_rows cfg hp data g st hs, if_pos hNeed]
  refine scatterDim0_getElem? _ _ _ _ ?_
  intro ir hir r hr
  rw [zeroIndex_all_zero _ ir hir r hr]
  omega

/-- Witness for C10 at a concrete shard-eligible parameter and row 2. -/
theorem claim_C10_witness :
    (stepParam ⟨0, 2, 1⟩ ⟨1, 0, 0, 0, 0, false⟩
        ⟨[1], 0, 0, false, [[1], [1], [1], [1]]⟩
        (some ⟨⟨[1], 0, 0, false, [[1], [1], [1], [1]]⟩, false⟩)
        none).param.rows[2]? =
      ([[1], [1], [1], [1]] : List (List ℚ))[2]? :=
  (claim_C10 ⟨0, 2, 1⟩ ⟨1, 0, 0, 0, 0, false⟩
    ⟨[1], 0, 0, false, [[1], [1], [1], [1]]⟩
    ⟨⟨[1], 0, 0, false, [[1], [1], [1], [1]]⟩, false⟩ none rfl
    (by decide)).2 2 (by decide)

/-- Counterexample for C1: with `world_size = 2`, `rank = 0`,
`zero_opt_level = 1`, a `[4, 1]` all-ones parameter, an all-ones
gradient and hyperparameters `lr=1, β1=β2=0, eps=0, wd=0`, the updated
local shard is `[[0], [0]]` but after the writeback the global parameter
is `[[0], [1], [1], [1]]`: row 1 of the shard (global row
`rank*part_size + 1 = 1`) is NOT written, because the scatter uses an
all-zero index tensor rather than the rank's shard offset. -/
theorem claim_C1_counterexample :
    needPartition ⟨0, 2, 1⟩ ⟨[1], 0, 0, false, [[1], [1], [1], [1]]⟩ = true
    ∧ ¬ writebackAtShardOffset ⟨0, 2, 1⟩ ⟨1, 0, 0, 0, 0, false⟩
        ⟨[1], 0, 0, false, [[1], [1], [1], [1]]⟩
        ⟨[1], 0, 0, false, [[1], [1], [1], [1]]⟩ none := by
  refine ⟨by decide, ?_⟩
  intro h
  have h1 := h 1 (by
    norm_num [initState, needPartition, createPartitionedBuffer, ceilDiv,
      zeroRow])
  norm_num [stepParam, stepUpdated, Fadam, initState,
    createPartitionedBuffer, zerosLike, Adam.partition, Adam.padRows,
    needPartition, ceilDiv, tzip, tmap, zeroRow, scatterDim0,
    scatterRowDim0, updateRow, zeroIndex, List.replicate] at h1

/-- Claim C1 (amended): for every parameter processed by `step` with a
non-sparse gradient: if the parameter is shard-eligible, the updated
local shard is written back via `scatter_` along dimension 0 with an
all-zero index tensor — a placeholder for the intended allgather — so
only row 0 of the global parameter is modified and every row at index 1
or greater is unchanged (the shard is NOT placed at the rank's shard
offset); if it is not shard-eligible, the full global parameter is
directly overwritten in place with the updated value. -/
theorem claim_C1 (cfg : DistCtx) (hp : Hyper) (data : Tensor) (g : Grad)
    (st : Option AdamState) (hs : g.isSparse = false) :
    (needPartition cfg data = true →
        (stepParam cfg hp data (some g) st).param.rows =
          scatterDim0 data.rows
            (zeroIndex (stepUpdated cfg hp data g.tensor st).1.rows)
            (stepUpdated cfg hp data g.tensor st).1.rows
        ∧ ∀ i, 1 ≤ i →
            (stepParam cfg hp data (some g) st).param.rows[i]? =
              data.rows[i]?)
    ∧ (needPartition cfg data = false →
        (stepParam cfg hp data (some g) st).param.rows =
          (stepUpdated cfg hp data g.tensor st).1.rows) := by
  constructor
  · intro hNeed
    constructor
    · rw [stepParam_param_rows cfg hp data g st hs, if_pos hNeed]
    · intro i hi
      rw [stepParam_param_rows cfg hp data g st hs, if_pos hNeed]
      refine scatterDim0_getElem? _ _ _ _ ?_
      intro ir hir r hr
      rw [zeroIndex_all_zero _ ir hir r hr]
      omega
  · intro hNot
    rw [stepParam_param_rows cfg hp data g st hs, if_neg (by simp [hNot])]

/-- Witness for the amended C1 at a concrete ineligible parameter. -/
theorem claim_C1_witness :
    (stepParam ⟨0, 8, 1⟩ ⟨1, 0, 0, 0, 0, false⟩
        ⟨[1], 0, 0, false, [[1], [1]]⟩
        (some ⟨⟨[1], 0, 0, false, [[1], [1]]⟩, false⟩) none).param.rows =
      (stepUpdated ⟨0, 8, 1⟩ ⟨1, 0, 0, 0, 0, false⟩
        ⟨[1], 0, 0, false, [[1], [1]]⟩
        ⟨[1], 0, 0, false, [[1], [1]]⟩ none).1.rows :=
  (claim_C1 ⟨0, 8, 1⟩ ⟨1, 0, 0, 0, 0, false⟩
    ⟨[1], 0, 0, false, [[1], [1]]⟩
    ⟨⟨[1], 0, 0, false, [[1], [1]]⟩, false⟩ none rfl).2 (by decide)

/-- Claim C6: after a step for a parameter with a (well-formed,
same-shaped) non-sparse gradient, starting from no state or a state
satisfying the shape invariant, the resulting state satisfies
`exp_avg.shape = exp_avg_sq.shape`, and this common shape is the
parameter's full shape when the parameter is not shard-eligible and the
per-rank shard shape (leading dimension `ceil(shape[0]/world_size)`)
when it is — never anything else. -/
theorem claim_C6 (cfg : DistCtx) (hp : Hyper) (data : Tensor) (g : Grad)
    (st : Option AdamState) (hs : g.isSparse = false)
    (hg : g.tensor.shape = data.shape)
    (hw : 0 < cfg.worldSize) (hr : cfg.rank < cfg.worldSize)
    (hst : ∀ s, st = some s → stateShapeOK cfg data s) :
    ∃ s', (stepParam cfg hp data (some g) st).state = some s'
      ∧ stateShapeOK cfg data s' := by
  have hshape := hg
  simp only [Tensor.shape, List.cons.injEq] at hshape
  obtain ⟨hlen, hinner⟩ := hshape
  have hOK0 : stateShapeOK cfg data (initState cfg data st) := by
    cases st with
    | some s => exact hst s rfl
    | none =>
        by_cases hNeed : needPartition cfg data = true
        · refine ⟨by simp [initState, hNeed], ?_⟩
          simp [initState, hNeed, createPartitionedBuffer, Tensor.shape,
            shardShape]
        · refine ⟨by simp [initState, hNeed], ?_⟩
          simp [initState, hNeed, zerosLike, Tensor.shape]
  obtain ⟨hEq0, hShape0⟩ := hOK0
  have hNeedG : needPartition cfg g.tensor = needPartition cfg data := by
    simp [needPartition, hlen]
  have hlocLen : (Adam.partition cfg g.tensor
      (initState cfg data st).expAvg).rows.length =
      (initState cfg data st).expAvg.rows.length := by
    by_cases hNeed : needPartition cfg data = true
    · exact partition_rows_length cfg g.tensor _ (hNeedG.trans hNeed) hr
    · have hNeedF : needPartition cfg g.tensor = false := by
        rw [hNeedG]
        exact Bool.eq_false_iff.mpr hNeed
      unfold Adam.partition
      rw [if_neg (by simp [hNeedF])]
      rw [hlen]
      have hfull : (initState cfg data st).expAvg.shape = data.shape := by
        rw [hShape0, if_neg hNeed]
      have := shape_head _ _ hfull
      simp only [Tensor.shape, List.headI] at this
      omega
  refine ⟨_, stepParam_state cfg hp data g st hs, ?_, ?_⟩
  · rw [(stepUpdated_moments cfg hp data g.tensor st).1,
      (stepUpdated_moments cfg hp data g.tensor st).2]
    rw [tzip_shape _ _ _ hlocLen]
    have hlenSq : (initState cfg data st).expAvg.rows.length =
        (initState cfg data st).expAvgSq.rows.length := by
      have := congrArg List.headI hEq0
      simpa [Tensor.shape, List.headI] using this
    rw [tzip_shape _ _ _ (hlocLen.trans hlenSq)]
    exact hEq0
  · rw [(stepUpdated_moments cfg hp data g.tensor st).1]
    rw [tzip_shape _ _ _ hlocLen]
    exact hShape0

/-- Witness for C6 at a concrete shard-eligible parameter with no prior
state. -/
theorem claim_C6_witness :
    ∃ s', (stepParam ⟨0, 2, 1⟩ ⟨1, 0, 0, 0, 0, false⟩
        ⟨[1], 0, 0, false, [[1], [1], [1], [1]]⟩
        (some ⟨⟨[1], 0, 0, false, [[1], [1], [1], [1]]⟩, false⟩)
        none).state = some s'
      ∧ stateShapeOK ⟨0, 2, 1⟩ ⟨[1], 0, 0, false, [[1], [1], [1], [1]]⟩ s' :=
  claim_C6 ⟨0, 2, 1⟩ ⟨1, 0, 0, 0, 0, false⟩
    ⟨[1], 0, 0, false, [[1], [1], [1], [1]]⟩
    ⟨⟨[1], 0, 0, false, [[1], [1], [1], [1]]⟩, false⟩ none rfl rfl
    (by decide) (by decide) (fun s h => by simp at h)

/-- Claim C9: optimizer state is created lazily on the first step with
`step = 0` and zero-initialized moment buffers, shard-shaped exactly when
the parameter is shard-eligible (a first step from no state behaves
exactly like a step from that fresh state); on every step the counter is
incremented by exactly one before the Adam update math runs, so the
update is computed by `F.adam` with the incremented count, and after the
`k`-th step for a parameter the state's counter equals `k`. -/
theorem claim_C9 (cfg : DistCtx) (hp : Hyper) (data : Tensor) (g : Grad)
    (st : Option AdamState) (s : AdamState) (grads : List Grad)
    (hs : g.isSparse = false) (hst : st = some s)
    (hns : ∀ x ∈ grads, x.isSparse = false) (hne : grads ≠ []) :
    (initState cfg data none).step = 0
    ∧ (initState cfg data none).expAvg =
        (if needPartition cfg data then createPartitionedBuffer cfg data
          else zerosLike data)
    ∧ (initState cfg data none).expAvgSq =
        (if needPartition cfg data then createPartitionedBuffer cfg data
          else zerosLike data)
    ∧ (∀ r ∈ (initState cfg data none).expAvg.rows,
        r = zeroRow data.innerShape.prod)
    ∧ stepParam cfg hp data (some g) none =
        stepParam cfg hp data (some g) (some (initState cfg data none))
    ∧ (stepParam cfg hp data (some g) st).state =
        some ⟨s.step + 1, (stepUpdated cfg hp data g.tensor st).2.1,
          (stepUpdated cfg hp data g.tensor st).2.2⟩
    ∧ stepUpdated cfg hp data g.tensor st =
        Fadam hp (s.step + 1) (Adam.partition cfg data s.expAvg)
          (Adam.partition cfg g.tensor s.expAvg) s.expAvg s.expAvgSq
    ∧ ∃ sk, (runSteps cfg hp (data, none) grads).2 = some sk
        ∧ sk.step = grads.length := by
  refine ⟨?_, ?_, ?_, ?_, by simp [stepParam, hs, stepUpdated, initState], ?_, ?_, ?_⟩
  · by_cases hNeed : needPartition cfg data = true <;>
      simp [initState, hNeed]
  · by_cases hNeed : needPartition cfg data = true <;>
      simp [initState, hNeed]
  · by_cases hNeed : needPartition cfg data = true <;>
      simp [initState, hNeed]
  · intro r hr
    by_cases hNeed : needPartition cfg data = true <;>
      simp [initState, hNeed, createPartitionedBuffer, zerosLike] at hr <;>
      exact hr.2
  · rw [stepParam_state cfg hp data g st hs, hst]
    simp [initState]
  · rw [hst]
    rfl
  · cases grads with
    | nil => exact absurd rfl hne
    | cons g0 rest =>
        have hg0 : g0.isSparse = false := hns g0 (List.mem_cons_self _ _)
        rw [runSteps_cons]
        rw [stepParam_state cfg hp data g0 none hg0]
        obtain ⟨sk, h1, h2⟩ :=
          runSteps_state_step cfg hp rest
            (fun x hx => hns x (List.mem_cons_of_mem _ hx))
            (stepParam cfg hp data (some g0) none).param
            ⟨(initState cfg data none).step + 1,
              (stepUpdated cfg hp data g0.tensor none).2.1,
              (stepUpdated cfg hp data g0.tensor none).2.2⟩
        refine ⟨sk, h1, ?_⟩
        rw [h2]
        by_cases hNeed : needPartition cfg data = true <;>
          simp [initState, hNeed] <;> omega

/-- Witness for C9 at a concrete parameter, prior state, and a run of
two steps. -/
theorem claim_C9_witness :
    ∃ sk, (runSteps ⟨0, 2, 1⟩ ⟨1, 0, 0, 0, 0, false⟩
        (⟨[1], 0, 0, false, [[1], [1], [1], [1]]⟩, none)
        [⟨⟨[1], 0, 0, false, [[1], [1], [1], [1]]⟩, false⟩,
          ⟨⟨[1], 0, 0, false, [[1], [1], [1], [1]]⟩, false⟩]).2 = some sk
      ∧ sk.step = 2 :=
  (claim_C9 ⟨0, 2, 1⟩ ⟨1, 0, 0, 0, 0, false⟩
    ⟨[1], 0, 0, false, [[1], [1], [1], [1]]⟩
    ⟨⟨[1], 0, 0, false, [[1], [1], [1], [1]]⟩, false⟩
    (some ⟨3, ⟨[1], 0, 0, false, [[0], [0]]⟩, ⟨[1], 0, 0, false, [[0], [0]]⟩⟩)
    ⟨3, ⟨[1], 0, 0, false, [[0], [0]]⟩, ⟨[1], 0, 0, false, [[0], [0]]⟩⟩
    [⟨⟨[1], 0, 0, false, [[1], [1], [1], [1]]⟩, false⟩,
      ⟨⟨[1], 0, 0, false, [[1], [1], [1], [1]]⟩, false⟩]
    rfl rfl (by decide) (by simp)).2.2.2.2.2.2.2

end RatexAdam
